import Mathlib

/-!
# A verification development for `scripts/run_deepvariant.py`

This file gives a shallow embedding of the DeepVariant one-step runner
script and proves properties of its command-construction logic.

Modelling conventions:
* Python strings are `List Char` (called `Str` below).
* Python dicts with string keys are association lists in insertion order;
  assignment `d[k] = v` overwrites in place (`dictInsert`), so every dict
  built by the script has unique keys.
* Python values flowing through the option dictionaries are `Value`:
  `None`, `bool`, `str`, or a number carried by its decimal rendering
  (the only number in the script is `0.12`, and `str(0.12) = "0.12"`).
* Code that can raise (`split('=')` unpacking, `MODEL_TYPE_MAP[...]`
  lookup) returns `Except Unit`.
* The printed overwrite warnings of `_update_kwargs_with_warning` are
  returned as structured values `(key, old value, new value)`.
* `subprocess` execution and directory creation are outside the embedded
  fragment; `main` is modelled up to the point where the three command
  strings are handed to the execution loop (`MainResult.run`), with the
  `tempfile.mkdtemp()` result passed in as an explicit parameter.
-/

namespace RunDeepVariant

/-- Python strings, modelled as lists of characters. -/
abbrev Str : Type := List Char

/-- A Python value appearing in the option dictionaries of the script. -/
inductive Value : Type where
  | none : Value
  | bool : Bool → Value
  | str : Str → Value
  | num : Str → Value
deriving DecidableEq

instance : Inhabited Value := ⟨Value.none⟩

deriving instance DecidableEq for Except

/-- A Python dict with string keys, as an association list in insertion
order. -/
abbrev Dict : Type := List (Str × Value)

/-- Python dict lookup (`d[k]`, `k in d`): the binding of `k`, if any. -/
def dictGet (d : Dict) (k : Str) : Option Value :=
  match d with
  | [] => Option.none
  | (k', v) :: rest => if k' = k then some v else dictGet rest k

/-- Python dict assignment `d[k] = v`: overwrite in place if the key is
present, otherwise append at the end (insertion order). -/
def dictInsert (d : Dict) (k : Str) (v : Value) : Dict :=
  match d with
  | [] => [(k, v)]
  | (k', v') :: rest =>
      if k' = k then (k', v) :: rest else (k', v') :: dictInsert rest k v

/-- Python `s.split(sep)` for a one-character separator.  Never returns
`[]`; in particular `"".split(",") = [""]`. -/
def splitOnChar (sep : Char) : Str → List Str
  | [] => [[]]
  | c :: cs =>
    match splitOnChar sep cs with
    | [] => [[]]
    | h :: t => if c = sep then [] :: h :: t else (c :: h) :: t

/-- Python `str(value)` for the values the script renders. -/
def pyStr : Value → Str
  | Value.none => "None".toList
  | Value.bool true => "True".toList
  | Value.bool false => "False".toList
  | Value.str s => s
  | Value.num r => r

/-- Python `value.startswith(pat)`. -/
def startswith (value pat : Str) : Bool :=
  pat.isPrefixOf value

/-- Python `value.endswith(pat)`. -/
def endswith (value pat : Str) : Bool :=
  pat.isSuffixOf value

/-- `_is_quoted(value)` from the script: the string starts and ends with
`"` or starts and ends with `'`. -/
def _is_quoted (value : Str) : Bool :=
  if startswith value ['"'] && endswith value ['"'] then true
  else if startswith value ['\''] && endswith value ['\''] then true
  else false

/-- `'"\x7b\x7d"'.format(s)`: wrap a string in double quotes. -/
def fmtQuoted (s : Str) : Str :=
  '"' :: s ++ ['"']

/-- `_add_quotes(value)` from the script: a string that is already quoted
passes through; everything else is formatted and wrapped in `"`. -/
def _add_quotes (value : Value) : Str :=
  match value with
  | Value.str s => if _is_quoted s then s else fmtQuoted s
  | v => fmtQuoted (pyStr v)

/-- Lines 152–156 of the script: the value of one `name=value` pair;
`"true"` and `"false"` (case-insensitively, via `flag_value.lower()`)
become booleans and everything else stays a string. -/
def convertValue (flag_value : Str) : Value :=
  if flag_value.map Char.toLower = "true".toList then Value.bool true
  else if flag_value.map Char.toLower = "false".toList then Value.bool false
  else Value.str flag_value

/-- The loop of `_extra_args_to_dict`: each comma-separated part is split
on `=`; unpacking `(flag_name, flag_value) = extra_arg.split('=')` raises
`ValueError` unless the split has exactly two parts. -/
def parsePairs (args_dict : Dict) : List Str → Except Unit Dict
  | [] => Except.ok args_dict
  | part :: rest =>
    match splitOnChar '=' part with
    | [flag_name, flag_value] =>
        parsePairs (dictInsert args_dict flag_name (convertValue flag_value)) rest
    | _ => Except.error ()

/-- `_extra_args_to_dict(extra_args)` from the script. -/
def _extra_args_to_dict (extra_args : Option Str) : Except Unit Dict :=
  match extra_args with
  | Option.none => Except.ok []
  | some s => parsePairs [] (splitOnChar ',' s)

/-- Python string comparison `a <= b` (lexicographic by code point, with a
proper initial segment smaller). -/
def strLe : Str → Str → Bool
  | [], _ => true
  | _ :: _, [] => false
  | a :: s1, b :: s2 => if a < b then true else if b < a then false else strLe s1 s2

/-- Ordering of dict entries by key, for `sorted(extra_args)`. -/
def dictLe (a b : Str × Value) : Prop :=
  strLe a.1 b.1 = true

instance : DecidableRel dictLe :=
  fun a b => inferInstanceAs (Decidable (strLe a.1 b.1 = true))

/-- `sorted(extra_args)`: the dict entries sorted by key.  (Python sorts
the key list and looks each key up; with unique keys this is the same as
sorting the entry list.) -/
def sortDict (d : Dict) : Dict :=
  List.insertionSort dictLe d

/-- The tokens one loop iteration of `_extend_command_by_args_dict`
appends for the entry `kv`: nothing for `None`, the single token
`--key` / `--nokey` for a boolean, and `--key` followed by the quoted
value otherwise. -/
def entryTokens (kv : Str × Value) : List Str :=
  match kv.2 with
  | Value.none => []
  | Value.bool b => ["--".toList ++ ((if b then [] else "no".toList) ++ kv.1)]
  | v => ["--".toList ++ kv.1, _add_quotes v]

/-- `_extend_command_by_args_dict(command, extra_args)` from the script:
iterate the keys in sorted order and append each entry's tokens. -/
def _extend_command_by_args_dict (command : List Str) (extra_args : Dict) : List Str :=
  command ++ (sortDict extra_args).flatMap entryTokens

/-- One overwrite warning printed by `_update_kwargs_with_warning`:
the key, the previous value and the new value. -/
abbrev Warning := Str × Value × Value

/-- `_update_kwargs_with_warning(kwargs, extra_args)` from the script:
fold the overlay into `kwargs` in iteration order, warning (with the old
and the new value) whenever the key is already present, then overwriting.
Returns the updated dict together with the warnings printed. -/
def _update_kwargs_with_warning (kwargs : Dict) (extra_args : Dict) : Dict × List Warning :=
  match extra_args with
  | [] => (kwargs, [])
  | (k, v) :: rest =>
    let ws : List Warning :=
      match dictGet kwargs k with
      | some old => [(k, old, v)]
      | Option.none => []
    let r := _update_kwargs_with_warning (dictInsert kwargs k v) rest
    (r.1, ws ++ r.2)

/-- The flags of the script, as parsed by absl (`None` = not supplied).
`num_shards` defaults to 1 and `vcf_stats_report` to true at the parsing
layer, which is outside the embedded fragment. -/
structure Flags where
  model_type : Option Str
  ref : Option Str
  reads : Option Str
  output_vcf : Option Str
  intermediate_results_dir : Option Str
  version : Option Bool
  customized_model : Option Str
  num_shards : Int
  regions : Option Str
  sample_name : Option Str
  make_examples_extra_args : Option Str
  call_variants_extra_args : Option Str
  postprocess_variants_extra_args : Option Str
  output_gvcf : Option Str
  vcf_stats_report : Bool
deriving DecidableEq

/-- `MODEL_TYPE_MAP` from the script. -/
def MODEL_TYPE_MAP : List (Str × Str) :=
  [("WGS".toList, "/opt/models/wgs/model.ckpt".toList),
   ("WES".toList, "/opt/models/wes/model.ckpt".toList),
   ("PACBIO".toList, "/opt/models/pacbio/model.ckpt".toList),
   ("HYBRID_PACBIO_ILLUMINA".toList, "/opt/models/hybrid_pacbio_illumina/model.ckpt".toList)]

/-- Lookup in a string-to-string map (Python dict indexing). -/
def strMapGet : List (Str × Str) → Str → Option Str
  | [], _ => Option.none
  | (k', v) :: rest, k => if k' = k then some v else strMapGet rest k

/-- `get_model_ckpt(model_type, customized_model)` from the script; the
dict indexing `MODEL_TYPE_MAP[model_type]` raises `KeyError` for a key
not in the table (including `None`). -/
def get_model_ckpt (model_type : Option Str) (customized_model : Option Str) :
    Except Unit Str :=
  match customized_model with
  | some m => Except.ok m
  | Option.none =>
    match model_type with
    | some mt =>
      match strMapGet MODEL_TYPE_MAP mt with
      | some p => Except.ok p
      | Option.none => Except.error ()
    | Option.none => Except.error ()

/-- Python's `str(i)` for an integer. -/
def intToStr (i : Int) : Str :=
  (toString i).toList

/-- `os.path.join(a, b)` for the two-argument uses in the script. -/
def os_path_join (a b : Str) : Str :=
  if b.head? = some '/' then b
  else if a = [] ∨ a.getLast? = some '/' then a ++ b
  else a ++ '/' :: b

/-- A Python `None`-or-string value placed into an option dict. -/
def optValue : Option Str → Value
  | some s => Value.str s
  | Option.none => Value.none

/-- A Python `None`-or-string value handed to a `'"\x7b\x7d"'.format`
site (`str(None) = "None"`). -/
def optPath : Option Str → Str
  | some s => s
  | Option.none => "None".toList

/-- The `special_args` dict built for `model_type == 'PACBIO'`
(lines 207–210 of the script), in insertion order. -/
def special_args : Dict :=
  [("realign_reads".toList, Value.bool false),
   ("vsc_min_fraction_indels".toList, Value.num ("0.12".toList)),
   ("alt_aligned_pileup".toList, Value.str ("diff_channels".toList))]

/-- Lines 206–214 of `make_examples_command`: inject the PACBIO defaults
into `kwargs`, then merge the parsed extra args, both through
`_update_kwargs_with_warning`.  Returns the merged dict and all warnings
printed. -/
def make_examples_merged (flags : Flags) (kwargs : Dict) (extra_args : Option Str) :
    Except Unit (Dict × List Warning) :=
  let s1 :=
    if flags.model_type = some ("PACBIO".toList) then
      _update_kwargs_with_warning kwargs special_args
    else (kwargs, [])
  match _extra_args_to_dict extra_args with
  | Except.error e => Except.error e
  | Except.ok ed =>
    let s2 := _update_kwargs_with_warning s1.1 ed
    Except.ok (s2.1, s1.2 ++ s2.2)

/-- The fixed token prefix of the make_examples command
(lines 198–205 of the script). -/
def make_examples_start (flags : Flags) (ref reads examples : Str) : List Str :=
  ["time".toList,
   "seq 0 ".toList ++ intToStr (flags.num_shards - 1) ++ " |".toList,
   "parallel -q --halt 2 --line-buffer".toList,
   "/opt/deepvariant/bin/make_examples".toList,
   "--mode".toList, "calling".toList,
   "--ref".toList, fmtQuoted ref,
   "--reads".toList, fmtQuoted reads,
   "--examples".toList, fmtQuoted examples]

/-- `make_examples_command` up to the final `' '.join`: the token list of
the command, together with the overwrite warnings printed while merging. -/
def make_examples_tokens (flags : Flags) (ref reads examples : Str)
    (extra_args : Option Str) (kwargs : Dict) :
    Except Unit (List Str × List Warning) :=
  match make_examples_merged flags kwargs extra_args with
  | Except.error e => Except.error e
  | Except.ok kw =>
    Except.ok
      (_extend_command_by_args_dict (make_examples_start flags ref reads examples) kw.1
        ++ ["--task \x7b\x7d".toList], kw.2)

/-- `' '.join(command)`. -/
def joinSpace (command : List Str) : Str :=
  List.intercalate [' '] command

/-- `make_examples_command(ref, reads, examples, extra_args, **kwargs)`:
the command string returned, paired with the warnings printed. -/
def make_examples_command (flags : Flags) (ref reads examples : Str)
    (extra_args : Option Str) (kwargs : Dict) :
    Except Unit (Str × List Warning) :=
  (make_examples_tokens flags ref reads examples extra_args kwargs).map
    (fun p => (joinSpace p.1, p.2))

/-- `call_variants_command` up to the final `' '.join`. -/
def call_variants_tokens (outfile examples model_ckpt : Str)
    (extra_args : Option Str) : Except Unit (List Str) :=
  let command :=
    ["time".toList, "/opt/deepvariant/bin/call_variants".toList,
     "--outfile".toList, fmtQuoted outfile,
     "--examples".toList, fmtQuoted examples,
     "--checkpoint".toList, fmtQuoted model_ckpt]
  match _extra_args_to_dict extra_args with
  | Except.error e => Except.error e
  | Except.ok d => Except.ok (_extend_command_by_args_dict command d)

/-- `call_variants_command(outfile, examples, model_ckpt, extra_args)`. -/
def call_variants_command (outfile examples model_ckpt : Str)
    (extra_args : Option Str) : Except Unit Str :=
  (call_variants_tokens outfile examples model_ckpt extra_args).map joinSpace

/-- `postprocess_variants_command` up to the final `' '.join`. -/
def postprocess_variants_tokens (ref infile outfile : Str)
    (extra_args : Option Str) (nonvariant_site_tfrecord_path : Option Str)
    (gvcf_outfile : Option Str) (vcf_stats_report : Bool)
    (sample_name : Option Str) : Except Unit (List Str) :=
  let command :=
    ["time".toList, "/opt/deepvariant/bin/postprocess_variants".toList,
     "--ref".toList, fmtQuoted ref,
     "--infile".toList, fmtQuoted infile,
     "--outfile".toList, fmtQuoted outfile]
  let command := command ++
    (match nonvariant_site_tfrecord_path with
     | some p => ["--nonvariant_site_tfrecord_path".toList, fmtQuoted p]
     | Option.none => [])
  let command := command ++
    (match gvcf_outfile with
     | some p => ["--gvcf_outfile".toList, fmtQuoted p]
     | Option.none => [])
  let command := command ++
    (if vcf_stats_report then [] else ["--novcf_stats_report".toList])
  let command := command ++
    (match sample_name with
     | some s => ["--sample_name".toList, fmtQuoted s]
     | Option.none => [])
  match _extra_args_to_dict extra_args with
  | Except.error e => Except.error e
  | Except.ok d => Except.ok (_extend_command_by_args_dict command d)

/-- `postprocess_variants_command(...)`. -/
def postprocess_variants_command (ref infile outfile : Str)
    (extra_args : Option Str) (nonvariant_site_tfrecord_path : Option Str)
    (gvcf_outfile : Option Str) (vcf_stats_report : Bool)
    (sample_name : Option Str) : Except Unit Str :=
  (postprocess_variants_tokens ref infile outfile extra_args
      nonvariant_site_tfrecord_path gvcf_outfile vcf_stats_report
      sample_name).map joinSpace

/-- `create_all_commands(intermediate_results_dir)` from the script, at
the token level: the three stage commands as token lists (in source
order: make_examples, call_variants, postprocess_variants), together with
the warnings printed while building the first. -/
def create_all_command_tokens (flags : Flags) (intermediate_results_dir : Str) :
    Except Unit (List (List Str) × List Warning) :=
  let nonvariant_site_tfrecord_path : Option Str :=
    match flags.output_gvcf with
    | some _ =>
        some (os_path_join intermediate_results_dir
          ("gvcf.tfrecord@".toList ++ intToStr flags.num_shards ++ ".gz".toList))
    | Option.none => Option.none
  let examples := os_path_join intermediate_results_dir
    ("make_examples.tfrecord@".toList ++ intToStr flags.num_shards ++ ".gz".toList)
  (make_examples_tokens flags (optPath flags.ref) (optPath flags.reads)
      examples flags.make_examples_extra_args
      [("gvcf".toList, optValue nonvariant_site_tfrecord_path),
       ("regions".toList, optValue flags.regions),
       ("sample_name".toList, optValue flags.sample_name)]).bind (fun t1 =>
    let call_variants_output :=
      os_path_join intermediate_results_dir "call_variants_output.tfrecord.gz".toList
    (get_model_ckpt flags.model_type flags.customized_model).bind (fun model_ckpt =>
      (call_variants_tokens call_variants_output examples model_ckpt
          flags.call_variants_extra_args).bind (fun t2 =>
        (postprocess_variants_tokens (optPath flags.ref) call_variants_output
            (optPath flags.output_vcf) flags.postprocess_variants_extra_args
            nonvariant_site_tfrecord_path flags.output_gvcf
            flags.vcf_stats_report flags.sample_name).map (fun t3 =>
          ([t1.1, t2, t3], t1.2)))))

/-- `create_all_commands`: the three command strings, with the printed
warnings. -/
def create_all_commands (flags : Flags) (intermediate_results_dir : Str) :
    Except Unit (List Str × List Warning) :=
  (create_all_command_tokens flags intermediate_results_dir).map
    (fun p => (p.1.map joinSpace, p.2))

/-- Python truthiness of the `--version` flag (`if FLAGS.version:`). -/
def truthy : Option Bool → Bool
  | some true => true
  | _ => false

/-- `FLAGS.get_flag_value(flag_key, None)` for the keys queried in
`main`. -/
def get_flag_value (flags : Flags) (k : Str) : Option Str :=
  if k = "model_type".toList then flags.model_type
  else if k = "ref".toList then flags.ref
  else if k = "reads".toList then flags.reads
  else if k = "output_vcf".toList then flags.output_vcf
  else Option.none

/-- The list iterated by the required-flag check in `main`. -/
def requiredFlagKeys : List Str :=
  ["model_type".toList, "ref".toList, "reads".toList, "output_vcf".toList]

/-- The first required flag found missing by the loop in `main`. -/
def firstMissingFlag (flags : Flags) : Option Str :=
  requiredFlagKeys.find? (fun k => (get_flag_value flags k).isNone)

/-- The stderr text written for a missing required flag. -/
def missingFlagMessage (k : Str) : Str :=
  "--".toList ++ k ++ " is required.\n".toList ++
    "Pass --helpshort or --helpfull to see help on flags.\n".toList

/-- How a run of `main` ends, up to the hand-off to `subprocess`:
the version banner, an early `sys.exit` with a stderr message and exit
status, an exception raised during command construction, or the three
command strings reaching the execution loop. -/
inductive MainResult : Type where
  | versionPrinted : MainResult
  | usageExit : Str → Nat → MainResult
  | raised : MainResult
  | run : List Str → List Warning → MainResult
deriving DecidableEq

/-- `main` from the script, up to the execution loop.  Directory creation
only determines the intermediate-results path: `tmpdir` stands for the
`tempfile.mkdtemp()` result used when no directory flag was given. -/
def main (flags : Flags) (tmpdir : Str) : MainResult :=
  if truthy flags.version then MainResult.versionPrinted
  else
    match firstMissingFlag flags with
    | some k => MainResult.usageExit (missingFlagMessage k) 1
    | Option.none =>
      let intermediate_results_dir :=
        match flags.intermediate_results_dir with
        | some d => d
        | Option.none => tmpdir
      match create_all_commands flags intermediate_results_dir with
      | Except.error _ => MainResult.raised
      | Except.ok p => MainResult.run p.1 p.2

/-! ## Statement-level definitions

Definitions used to state the verified properties: well-formedness of
dicts, renderings of `name=value` pair lists, token extraction from a
built command, the spec's wording of "already fully quoted", and
concrete flag records used to instantiate theorems. -/

/-- A dict has unique keys.  Every dict the script builds satisfies this,
since `dictInsert` overwrites in place. -/
def NodupKeys (d : Dict) : Prop :=
  List.Nodup (d.map Prod.fst)

instance (d : Dict) : Decidable (NodupKeys d) :=
  inferInstanceAs (Decidable (List.Nodup (d.map Prod.fst)))

/-- The comma-separated rendering of a list of `name=value` pairs. -/
def renderPairs : List (Str × Str) → Str
  | [] => []
  | [p] => p.1 ++ '=' :: p.2
  | p :: rest => p.1 ++ '=' :: p.2 ++ ',' :: renderPairs rest

/-- The raw value of the last `name=value` pair for a given name. -/
def lastValue : List (Str × Str) → Str → Option Str
  | [], _ => Option.none
  | p :: rest, k =>
    match lastValue rest k with
    | some v => some v
    | Option.none => if p.1 = k then some p.2 else Option.none

/-- The token following the first occurrence of `flag` in a command's
token list. -/
def argAfter (flag : Str) : List Str → Option Str
  | [] => Option.none
  | t :: rest => if t = flag then rest.head? else argAfter flag rest

/-- Whether the token `a` occurs immediately followed by the token `b`. -/
def hasAdjacent (a b : Str) : List Str → Bool
  | [] => false
  | [_] => false
  | x :: y :: rest => (decide (x = a) && decide (y = b)) || hasAdjacent a b (y :: rest)

/-- The spec's wording for "already fully quoted": the value starts and
ends with matching single or double quotes. -/
def SpecQuoted (s : Str) : Prop :=
  ∃ c, (c = '"' ∨ c = '\'') ∧ s.head? = some c ∧ s.getLast? = some c

/-- A concrete, fully specified run configuration with
`model_type=PACBIO`, used to instantiate theorems. -/
def pacbioExampleFlags : Flags :=
  { model_type := some ("PACBIO".toList)
    ref := some ("/ref.fa".toList)
    reads := some ("/reads.bam".toList)
    output_vcf := some ("/out.vcf".toList)
    intermediate_results_dir := Option.none
    version := Option.none
    customized_model := Option.none
    num_shards := 1
    regions := Option.none
    sample_name := Option.none
    make_examples_extra_args := Option.none
    call_variants_extra_args := Option.none
    postprocess_variants_extra_args := Option.none
    output_gvcf := Option.none
    vcf_stats_report := true }

/-- A concrete run configuration with `model_type=WGS` and all four
required flags set, used to instantiate theorems. -/
def wgsExampleFlags : Flags :=
  { pacbioExampleFlags with model_type := some ("WGS".toList) }

/-- `wgsExampleFlags` with `--ref` left unset. -/
def flagsWithoutRef : Flags :=
  { wgsExampleFlags with ref := Option.none }

/-- `wgsExampleFlags` with a malformed make_examples extra-args string. -/
def flagsBadExtraArgs : Flags :=
  { wgsExampleFlags with make_examples_extra_args := some ("a".toList) }

/-! ## Dictionary lemmas -/

theorem dictGet_dictInsert_self (d : Dict) (k : Str) (v : Value) :
    dictGet (dictInsert d k v) k = some v := by
  induction d with
  | nil => simp [dictInsert, dictGet]
  | cons e rest ih =>
    obtain ⟨k', v'⟩ := e
    by_cases h : k' = k
    · subst h
      simp [dictInsert, dictGet]
    · simp [dictInsert, dictGet, h, ih]

theorem dictGet_dictInsert_ne (d : Dict) {k' k : Str} (v : Value) (h : k' ≠ k) :
    dictGet (dictInsert d k' v) k = dictGet d k := by
  induction d with
  | nil => simp [dictInsert, dictGet, h]
  | cons e rest ih =>
    obtain ⟨k₀, v₀⟩ := e
    by_cases h0 : k₀ = k'
    · subst h0
      simp [dictInsert, dictGet, h]
    · by_cases h1 : k₀ = k
      · subst h1
        simp [dictInsert, dictGet, h0]
      · simp [dictInsert, dictGet, h0, h1, ih]

theorem mem_of_dictGet {d : Dict} {k : Str} {v : Value}
    (h : dictGet d k = some v) : (k, v) ∈ d := by
  induction d with
  | nil => simp [dictGet] at h
  | cons e rest ih =>
    obtain ⟨k', v'⟩ := e
    by_cases hk : k' = k
    · subst hk
      simp [dictGet] at h
      simp [h]
    · simp [dictGet, hk] at h
      exact List.mem_cons_of_mem _ (ih h)

theorem dictGet_eq_none_iff {d : Dict} {k : Str} :
    dictGet d k = Option.none ↔ k ∉ d.map Prod.fst := by
  induction d with
  | nil => simp [dictGet]
  | cons e rest ih =>
    obtain ⟨k', v'⟩ := e
    by_cases hk : k' = k
    · subst hk
      simp [dictGet]
    · simp [dictGet, hk, ih, Ne.symm hk]

theorem mem_keys_of_dictGet {d : Dict} {k : Str} {v : Value}
    (h : dictGet d k = some v) : k ∈ d.map Prod.fst := by
  by_contra hn
  simp [dictGet_eq_none_iff.mpr hn] at h

theorem keys_dictInsert (d : Dict) (k : Str) (v : Value) :
    (dictInsert d k v).map Prod.fst =
      if k ∈ d.map Prod.fst then d.map Prod.fst else d.map Prod.fst ++ [k] := by
  induction d with
  | nil => simp [dictInsert]
  | cons e rest ih =>
    obtain ⟨k₀, v₀⟩ := e
    by_cases h0 : k₀ = k
    · subst h0
      simp [dictInsert]
    · by_cases hmem : k ∈ rest.map Prod.fst <;>
        simp [dictInsert, h0, Ne.symm h0, hmem, ih]

theorem nodupKeys_dictInsert {d : Dict} (h : NodupKeys d) (k : Str) (v : Value) :
    NodupKeys (dictInsert d k v) := by
  unfold NodupKeys at *
  rw [keys_dictInsert]
  by_cases hmem : k ∈ d.map Prod.fst
  · simpa [hmem]
  · simpa [hmem, List.nodup_append] using h

/-! ## Merge (`_update_kwargs_with_warning`) lemmas -/

theorem update_fst_dictGet_of_none {over : Dict} {k : Str}
    (h : dictGet over k = Option.none) (base : Dict) :
    dictGet (_update_kwargs_with_warning base over).1 k = dictGet base k := by
  induction over generalizing base with
  | nil => simp [_update_kwargs_with_warning]
  | cons e rest ih =>
    obtain ⟨k', v'⟩ := e
    by_cases hk : k' = k
    · subst hk
      simp [dictGet] at h
    · simp only [dictGet, if_neg hk] at h
      simp only [_update_kwargs_with_warning]
      rw [ih h, dictGet_dictInsert_ne _ _ hk]

theorem update_both {over : Dict} (hnd : NodupKeys over) {base : Dict}
    {k : Str} {o v : Value}
    (hb : dictGet base k = some o) (ho : dictGet over k = some v) :
    dictGet (_update_kwargs_with_warning base over).1 k = some v ∧
      (k, o, v) ∈ (_update_kwargs_with_warning base over).2 := by
  induction over generalizing base with
  | nil => simp [dictGet] at ho
  | cons e rest ih =>
    obtain ⟨k', v'⟩ := e
    have hnd' : NodupKeys rest := (List.nodup_cons.mp hnd).2
    have hk'rest : k' ∉ rest.map Prod.fst := (List.nodup_cons.mp hnd).1
    by_cases hk : k' = k
    · subst hk
      have ho' : v' = v := by simpa [dictGet] using ho
      subst ho'
      have hrest : dictGet rest k' = Option.none :=
        dictGet_eq_none_iff.mpr hk'rest
      constructor
      · simp only [_update_kwargs_with_warning]
        rw [update_fst_dictGet_of_none hrest, dictGet_dictInsert_self]
      · simp [_update_kwargs_with_warning, hb]
    · simp only [dictGet, if_neg hk] at ho
      have hb' : dictGet (dictInsert base k' v') k = some o := by
        rw [dictGet_dictInsert_ne _ _ hk]; exact hb
      obtain ⟨h1, h2⟩ := ih hnd' hb' ho
      refine ⟨by simpa [_update_kwargs_with_warning] using h1, ?_⟩
      simp only [_update_kwargs_with_warning]
      exact List.mem_append_right _ h2

theorem update_fst_of_over {over : Dict} (hnd : NodupKeys over) {k : Str}
    {v : Value} (ho : dictGet over k = some v) (base : Dict) :
    dictGet (_update_kwargs_with_warning base over).1 k = some v := by
  induction over generalizing base with
  | nil => simp [dictGet] at ho
  | cons e rest ih =>
    obtain ⟨k', v'⟩ := e
    have hnd' : NodupKeys rest := (List.nodup_cons.mp hnd).2
    have hk'rest : k' ∉ rest.map Prod.fst := (List.nodup_cons.mp hnd).1
    by_cases hk : k' = k
    · subst hk
      have ho' : v' = v := by simpa [dictGet] using ho
      subst ho'
      have hrest : dictGet rest k' = Option.none :=
        dictGet_eq_none_iff.mpr hk'rest
      simp only [_update_kwargs_with_warning]
      rw [update_fst_dictGet_of_none hrest, dictGet_dictInsert_self]
    · simp only [dictGet, if_neg hk] at ho
      simpa [_update_kwargs_with_warning] using ih hnd' ho _

theorem dictGet_of_mem_nodup {d : Dict} (hnd : NodupKeys d) {k : Str}
    {v : Value} (h : (k, v) ∈ d) : dictGet d k = some v := by
  induction d with
  | nil => simp at h
  | cons e rest ih =>
    obtain ⟨k', v'⟩ := e
    have hnd' : NodupKeys rest := (List.nodup_cons.mp hnd).2
    have hk'rest : k' ∉ rest.map Prod.fst := (List.nodup_cons.mp hnd).1
    rcases List.mem_cons.mp h with he | hr
    · obtain ⟨h1, h2⟩ := Prod.mk.injEq .. ▸ he
      subst h1; subst h2
      simp [dictGet]
    · have hkmem : k ∈ rest.map Prod.fst :=
        List.mem_map.mpr ⟨(k, v), hr, rfl⟩
      have hk : k' ≠ k := fun hEq => hk'rest (hEq ▸ hkmem)
      simp [dictGet, hk, ih hnd' hr]

theorem update_warning_src {over : Dict} (hnd : NodupKeys over) {base : Dict}
    {k : Str} {o v : Value}
    (hw : (k, o, v) ∈ (_update_kwargs_with_warning base over).2) :
    dictGet base k = some o ∧ dictGet over k = some v := by
  induction over generalizing base with
  | nil => simp [_update_kwargs_with_warning] at hw
  | cons e rest ih =>
    obtain ⟨k', v'⟩ := e
    have hnd' : NodupKeys rest := (List.nodup_cons.mp hnd).2
    have hk'rest : k' ∉ rest.map Prod.fst := (List.nodup_cons.mp hnd).1
    simp only [_update_kwargs_with_warning, List.mem_append] at hw
    rcases hw with hw | hw
    · rcases hget : dictGet base k' with _ | old <;> rw [hget] at hw
      · simp at hw
      · simp only [List.mem_singleton, Prod.mk.injEq] at hw
        obtain ⟨hk, hov⟩ := hw
        subst hk
        refine ⟨by rw [hget, hov.1], ?_⟩
        simp [dictGet, hov.2]
    · obtain ⟨h1, h2⟩ := ih hnd' hw
      have hk : k' ≠ k := by
        intro hEq
        subst hEq
        exact hk'rest (mem_keys_of_dictGet h2)
      rw [dictGet_dictInsert_ne _ _ hk] at h1
      refine ⟨h1, ?_⟩
      simp [dictGet, hk, h2]

/-! ## Key-ordering lemmas -/

theorem strLe_total : ∀ s1 s2 : Str, strLe s1 s2 = true ∨ strLe s2 s1 = true := by
  intro s1
  induction s1 with
  | nil => intro s2; left; rfl
  | cons a t1 ih =>
    intro s2
    cases s2 with
    | nil => right; rfl
    | cons b t2 =>
      rcases lt_trichotomy a b with h | h | h
      · left; simp [strLe, h]
      · subst h
        rcases ih t2 with h2 | h2
        · left; simp [strLe, h2]
        · right; simp [strLe, h2]
      · right; simp [strLe, h]

theorem strLe_trans : ∀ s1 s2 s3 : Str,
    strLe s1 s2 = true → strLe s2 s3 = true → strLe s1 s3 = true := by
  intro s1
  induction s1 with
  | nil => intro s2 s3 _ _; rfl
  | cons a t1 ih =>
    intro s2 s3 h12 h23
    cases s2 with
    | nil => simp [strLe] at h12
    | cons b t2 =>
      cases s3 with
      | nil => simp [strLe] at h23
      | cons c t3 =>
        rcases lt_trichotomy a b with hab | hab | hab
        · rcases lt_trichotomy b c with hbc | hbc | hbc
          · simp [strLe, lt_trans hab hbc]
          · subst hbc; simp [strLe, hab]
          · simp [strLe, hbc, not_lt_of_lt hbc] at h23
        · subst hab
          simp only [strLe, lt_irrefl, if_false] at h12
          rcases lt_trichotomy a c with hac | hac | hac
          · simp [strLe, hac]
          · subst hac
            simp only [strLe, lt_irrefl, if_false] at h23 ⊢
            exact ih t2 t3 h12 h23
          · simp [strLe, hac, not_lt_of_lt hac] at h23
        · simp [strLe, hab, not_lt_of_lt hab] at h12

instance : IsTotal (Str × Value) dictLe :=
  ⟨fun a b => strLe_total a.1 b.1⟩

instance : IsTrans (Str × Value) dictLe :=
  ⟨fun _ _ _ h1 h2 => strLe_trans _ _ _ h1 h2⟩

theorem mem_sortDict {d : Dict} {e : Str × Value} : e ∈ sortDict d ↔ e ∈ d :=
  List.mem_insertionSort dictLe

theorem sortDict_sorted (d : Dict) : List.Sorted dictLe (sortDict d) :=
  List.sorted_insertionSort dictLe d

theorem sortDict_perm (d : Dict) : List.Perm (sortDict d) d :=
  List.perm_insertionSort dictLe d

/-! ## Renderer lemmas -/

theorem mem_extend_of_dictGet {d : Dict} {k : Str} {v : Value}
    (h : dictGet d k = some v) (command : List Str) {t : Str}
    (ht : t ∈ entryTokens (k, v)) :
    t ∈ _extend_command_by_args_dict command d := by
  unfold _extend_command_by_args_dict
  refine List.mem_append_right _ ?_
  exact List.mem_flatMap.mpr ⟨(k, v), mem_sortDict.mpr (mem_of_dictGet h), ht⟩

/-! ## Splitting and parsing lemmas -/

theorem splitOnChar_ne_nil (sep : Char) (l : Str) : splitOnChar sep l ≠ [] := by
  cases l with
  | nil => simp [splitOnChar]
  | cons c cs =>
    cases hs : splitOnChar sep cs with
    | nil => simp [splitOnChar, hs]
    | cons h t => by_cases hc : c = sep <;> simp [splitOnChar, hs, hc]

theorem splitOnChar_of_not_mem {sep : Char} {p : Str} (h : sep ∉ p) :
    splitOnChar sep p = [p] := by
  induction p with
  | nil => rfl
  | cons c cs ih =>
    rw [List.mem_cons, not_or] at h
    have hc : ¬c = sep := fun hEq => h.1 (hEq ▸ rfl)
    simp [splitOnChar, ih h.2, hc]

theorem splitOnChar_append {sep : Char} {p : Str} (h : sep ∉ p) (rest : Str) :
    splitOnChar sep (p ++ sep :: rest) = p :: splitOnChar sep rest := by
  induction p with
  | nil =>
    obtain ⟨h0, t0, hs⟩ : ∃ h0 t0, splitOnChar sep rest = h0 :: t0 := by
      cases hs : splitOnChar sep rest with
      | nil => exact absurd hs (splitOnChar_ne_nil sep rest)
      | cons h0 t0 => exact ⟨h0, t0, rfl⟩
    simp [splitOnChar, hs]
  | cons c cs ih =>
    rw [List.mem_cons, not_or] at h
    have hc : ¬c = sep := fun hEq => h.1 (hEq ▸ rfl)
    simp [splitOnChar, ih h.2, hc]

theorem parsePairs_error {parts : List Str}
    (h : ∃ part ∈ parts, (splitOnChar '=' part).length ≠ 2) (acc : Dict) :
    parsePairs acc parts = Except.error () := by
  induction parts generalizing acc with
  | nil => simp at h
  | cons part rest ih =>
    obtain ⟨p, hp, hlen⟩ := h
    rcases hsp : splitOnChar '=' part with _ | ⟨n, _ | ⟨v, _ | ⟨x, xs⟩⟩⟩
    · simp [parsePairs, hsp]
    · simp [parsePairs, hsp]
    · rcases List.mem_cons.mp hp with hpe | hpr
      · subst hpe
        simp [hsp] at hlen
      · simp only [parsePairs, hsp]
        exact ih ⟨p, hpr, hlen⟩ _
    · simp [parsePairs, hsp]

theorem splitOnChar_renderPairs {ps : List (Str × Str)} (hne : ps ≠ [])
    (hwf : ∀ p ∈ ps, ',' ∉ p.1 ∧ ',' ∉ p.2) :
    splitOnChar ',' (renderPairs ps) = ps.map (fun p => p.1 ++ '=' :: p.2) := by
  induction ps with
  | nil => exact absurd rfl hne
  | cons p rest ih =>
    have hp := hwf p (List.mem_cons_self p rest)
    have hpair : ',' ∉ p.1 ++ '=' :: p.2 := by
      simp only [List.mem_append, List.mem_cons, not_or]
      exact ⟨hp.1, by decide, hp.2⟩
    cases rest with
    | nil => simp [renderPairs, splitOnChar_of_not_mem hpair]
    | cons q rest' =>
      have ihr := ih (by simp)
        (fun x hx => hwf x (List.mem_cons_of_mem _ hx))
      have : renderPairs (p :: q :: rest') =
          (p.1 ++ '=' :: p.2) ++ ',' :: renderPairs (q :: rest') := by
        simp [renderPairs]
      rw [this, splitOnChar_append hpair, ihr]
      simp

theorem parsePairs_mapped {ps : List (Str × Str)}
    (hwf : ∀ p ∈ ps, '=' ∉ p.1 ∧ '=' ∉ p.2) (acc : Dict) :
    parsePairs acc (ps.map (fun p => p.1 ++ '=' :: p.2)) =
      Except.ok (ps.foldl (fun d p => dictInsert d p.1 (convertValue p.2)) acc) := by
  induction ps generalizing acc with
  | nil => rfl
  | cons p rest ih =>
    have hp := hwf p (List.mem_cons_self p rest)
    have hsp : splitOnChar '=' (p.1 ++ '=' :: p.2) = [p.1, p.2] := by
      rw [splitOnChar_append hp.1, splitOnChar_of_not_mem hp.2]
    simp only [List.map_cons, parsePairs, hsp, List.foldl_cons]
    exact ih (fun x hx => hwf x (List.mem_cons_of_mem _ hx)) _

theorem foldl_dictInsert_get (ps : List (Str × Str)) (d : Dict) (k : Str) :
    dictGet (ps.foldl (fun d p => dictInsert d p.1 (convertValue p.2)) d) k =
      match lastValue ps k with
      | some v => some (convertValue v)
      | Option.none => dictGet d k := by
  induction ps generalizing d with
  | nil => simp [lastValue]
  | cons p rest ih =>
    simp only [List.foldl_cons, ih]
    cases hl : lastValue rest k with
    | some v => simp [lastValue, hl]
    | none =>
      by_cases hk : p.1 = k
      · subst hk
        simp [lastValue, hl, dictGet_dictInsert_self]
      · simp [lastValue, hl, hk, dictGet_dictInsert_ne _ _ hk]

theorem nodupKeys_foldl_dictInsert (ps : List (Str × Str)) {d : Dict}
    (h : NodupKeys d) :
    NodupKeys (ps.foldl (fun d p => dictInsert d p.1 (convertValue p.2)) d) := by
  induction ps generalizing d with
  | nil => exact h
  | cons p rest ih => exact ih (nodupKeys_dictInsert h _ _)

theorem parsePairs_nodupKeys {parts : List Str} {acc d : Dict}
    (hacc : NodupKeys acc) (h : parsePairs acc parts = Except.ok d) :
    NodupKeys d := by
  induction parts generalizing acc with
  | nil =>
    simp only [parsePairs, Except.ok.injEq] at h
    exact h ▸ hacc
  | cons part rest ih =>
    rcases hsp : splitOnChar '=' part with _ | ⟨n, _ | ⟨v, _ | ⟨x, xs⟩⟩⟩ <;>
      rw [parsePairs, hsp] at h
    · exact absurd h (by simp)
    · exact absurd h (by simp)
    · exact ih (nodupKeys_dictInsert hacc _ _) h
    · exact absurd h (by simp)

theorem extra_args_nodupKeys {s : Option Str} {d : Dict}
    (h : _extra_args_to_dict s = Except.ok d) : NodupKeys d := by
  cases s with
  | none =>
    simp only [_extra_args_to_dict, Except.ok.injEq] at h
    subst h
    simp [NodupKeys]
  | some s => exact parsePairs_nodupKeys (by simp [NodupKeys]) h

/-! ## Token-extraction lemmas -/

theorem argAfter_cons_ne {t flag : Str} (h : t ≠ flag) (rest : List Str) :
    argAfter flag (t :: rest) = argAfter flag rest := by
  simp [argAfter, h]

theorem argAfter_cons_self (flag : Str) (rest : List Str) :
    argAfter flag (flag :: rest) = rest.head? := by
  simp [argAfter]

theorem fmtQuoted_ne_dash {s t : Str} (h : t.head? = some '-') :
    fmtQuoted s ≠ t := by
  intro hEq
  rw [← hEq] at h
  simp [fmtQuoted] at h

/-! ## Quoting lemmas -/

theorem startswith_singleton (s : Str) (c : Char) :
    startswith s [c] = true ↔ s.head? = some c := by
  cases s with
  | nil => simp [startswith, List.isPrefixOf]
  | cons a t =>
    simp only [startswith, List.isPrefixOf, Bool.and_true, beq_iff_eq,
      List.head?_cons, Option.some.injEq]
    exact eq_comm

theorem endswith_singleton (s : Str) (c : Char) :
    endswith s [c] = true ↔ s.getLast? = some c := by
  have : endswith s [c] = startswith s.reverse [c] := by
    simp [endswith, startswith, List.isSuffixOf]
  rw [this, startswith_singleton, List.head?_reverse]

theorem _is_quoted_iff (s : Str) : _is_quoted s = true ↔ SpecQuoted s := by
  have h2 : _is_quoted s =
      ((startswith s ['"'] && endswith s ['"']) ||
        (startswith s ['\''] && endswith s ['\''])) := by
    unfold _is_quoted
    cases hq1 : (startswith s ['"'] && endswith s ['"']) <;>
      cases hq2 : (startswith s ['\''] && endswith s ['\'']) <;>
        simp [hq1, hq2]
  rw [h2]
  simp only [Bool.or_eq_true, Bool.and_eq_true, startswith_singleton,
    endswith_singleton]
  constructor
  · rintro (⟨h1, hl⟩ | ⟨h1, hl⟩)
    · exact ⟨'"', Or.inl rfl, h1, hl⟩
    · exact ⟨'\'', Or.inr rfl, h1, hl⟩
  · rintro ⟨c, (rfl | rfl), h1, hl⟩
    · exact Or.inl ⟨h1, hl⟩
    · exact Or.inr ⟨h1, hl⟩

/-! ## Error propagation through command construction -/

theorem except_bind_error_of_all {α β : Type} {x : Except Unit α}
    {f : α → Except Unit β} (h : ∀ a, f a = Except.error ()) :
    x.bind f = Except.error () := by
  cases x with
  | error e => cases e; rfl
  | ok a => exact h a

theorem except_bind_of_ok {α β : Type} {x : Except Unit α} {a : α}
    (h : x = Except.ok a) (f : α → Except Unit β) : x.bind f = f a := by
  rw [h]; rfl

theorem create_error_make (flags : Flags) (dir : Str)
    (h : _extra_args_to_dict flags.make_examples_extra_args = Except.error ()) :
    create_all_command_tokens flags dir = Except.error () := by
  have hme : ∀ ref reads examples kwargs,
      make_examples_tokens flags ref reads examples
        flags.make_examples_extra_args kwargs = Except.error () := by
    intro ref reads examples kwargs
    simp [make_examples_tokens, make_examples_merged, h]
  simp only [create_all_command_tokens]
  rw [hme]
  rfl

theorem create_error_cv (flags : Flags) (dir : Str)
    (h : _extra_args_to_dict flags.call_variants_extra_args = Except.error ()) :
    create_all_command_tokens flags dir = Except.error () := by
  have hcv : ∀ o ex m,
      call_variants_tokens o ex m flags.call_variants_extra_args =
        Except.error () := by
    intro o ex m
    simp [call_variants_tokens, h]
  simp only [create_all_command_tokens]
  apply except_bind_error_of_all
  intro t1
  apply except_bind_error_of_all
  intro model_ckpt
  rw [hcv]
  rfl

theorem create_error_pp (flags : Flags) (dir : Str)
    (h : _extra_args_to_dict flags.postprocess_variants_extra_args =
      Except.error ()) :
    create_all_command_tokens flags dir = Except.error () := by
  have hpp : ∀ ref infile outfile nv gv vs sn,
      postprocess_variants_tokens ref infile outfile
        flags.postprocess_variants_extra_args nv gv vs sn =
        Except.error () := by
    intro ref infile outfile nv gv vs sn
    simp [postprocess_variants_tokens, h]
  simp only [create_all_command_tokens]
  apply except_bind_error_of_all
  intro t1
  apply except_bind_error_of_all
  intro model_ckpt
  apply except_bind_error_of_all
  intro t2
  rw [hpp]
  rfl

theorem except_bind_ok_inv {α β : Type} {x : Except Unit α}
    {f : α → Except Unit β} {b : β} (h : x.bind f = Except.ok b) :
    ∃ a, x = Except.ok a ∧ f a = Except.ok b := by
  cases x with
  | error e => simp [Except.bind] at h
  | ok a => exact ⟨a, rfl, h⟩

theorem except_map_ok_inv {α β : Type} {x : Except Unit α} {f : α → β}
    {b : β} (h : x.map f = Except.ok b) :
    ∃ a, x = Except.ok a ∧ f a = b := by
  cases x with
  | error e => simp [Except.map] at h
  | ok a =>
    simp only [Except.map, Except.ok.injEq] at h
    exact ⟨a, rfl, h⟩

/-! ## Shape of the built stage commands -/

theorem make_examples_tokens_ok {flags : Flags} {ref reads examples : Str}
    {extra : Option Str} {kwargs : Dict} {toks : List Str} {ws : List Warning}
    (h : make_examples_tokens flags ref reads examples extra kwargs =
      Except.ok (toks, ws)) :
    ∃ rest, toks = make_examples_start flags ref reads examples ++ rest := by
  unfold make_examples_tokens at h
  cases hm : make_examples_merged flags kwargs extra with
  | error e => rw [hm] at h; simp at h
  | ok kw =>
    rw [hm] at h
    simp only [Except.ok.injEq, Prod.mk.injEq] at h
    refine ⟨(sortDict kw.1).flatMap entryTokens ++ ["--task \x7b\x7d".toList], ?_⟩
    rw [← h.1]
    simp [_extend_command_by_args_dict]

theorem call_variants_tokens_ok {o ex m : Str} {extra : Option Str}
    {toks : List Str}
    (h : call_variants_tokens o ex m extra = Except.ok toks) :
    ∃ rest, toks = ["time".toList, "/opt/deepvariant/bin/call_variants".toList,
      "--outfile".toList, fmtQuoted o, "--examples".toList, fmtQuoted ex,
      "--checkpoint".toList, fmtQuoted m] ++ rest := by
  unfold call_variants_tokens at h
  cases hd : _extra_args_to_dict extra with
  | error e => rw [hd] at h; simp at h
  | ok d =>
    rw [hd] at h
    simp only [Except.ok.injEq] at h
    refine ⟨(sortDict d).flatMap entryTokens, ?_⟩
    rw [← h]
    simp [_extend_command_by_args_dict]

theorem postprocess_variants_tokens_ok {ref infile outfile : Str}
    {extra : Option Str} {nv gv : Option Str} {vs : Bool} {sn : Option Str}
    {toks : List Str}
    (h : postprocess_variants_tokens ref infile outfile extra nv gv vs sn =
      Except.ok toks) :
    ∃ rest, toks =
      ["time".toList, "/opt/deepvariant/bin/postprocess_variants".toList,
       "--ref".toList, fmtQuoted ref, "--infile".toList, fmtQuoted infile,
       "--outfile".toList, fmtQuoted outfile] ++ rest := by
  unfold postprocess_variants_tokens at h
  cases hd : _extra_args_to_dict extra with
  | error e => rw [hd] at h; simp at h
  | ok d =>
    rw [hd] at h
    simp only [Except.ok.injEq] at h
    subst h
    refine ⟨(match nv with
        | some p => ["--nonvariant_site_tfrecord_path".toList, fmtQuoted p]
        | Option.none => []) ++
      (match gv with
        | some p => ["--gvcf_outfile".toList, fmtQuoted p]
        | Option.none => []) ++
      (if vs then [] else ["--novcf_stats_report".toList]) ++
      (match sn with
        | some s => ["--sample_name".toList, fmtQuoted s]
        | Option.none => []) ++
      (sortDict d).flatMap entryTokens, ?_⟩
    simp [_extend_command_by_args_dict, List.append_assoc]

/-! ## `argAfter` over the stage prefixes -/

theorem ne_of_head_chars {a b : Str} {c1 c2 : Char} (ha : a.head? = some c1)
    (hb : b.head? = some c2) (h : c1 ≠ c2) : a ≠ b := by
  intro hEq
  rw [hEq, hb] at ha
  exact h (Option.some.inj ha).symm

theorem argAfter_append_not_mem {flag : Str} {pre : List Str}
    (h : ∀ t ∈ pre, t ≠ flag) (l : List Str) :
    argAfter flag (pre ++ l) = argAfter flag l := by
  induction pre with
  | nil => rfl
  | cons t ts ih =>
    rw [List.cons_append, argAfter_cons_ne (h t (by simp)),
      ih (fun x hx => h x (by simp [hx]))]

theorem argAfter_make_examples (flags : Flags) (ref reads examples : Str)
    (rest : List Str) :
    argAfter ("--examples".toList)
      (make_examples_start flags ref reads examples ++ rest) =
    some (fmtQuoted examples) := by
  have hsplit : make_examples_start flags ref reads examples ++ rest =
      ["time".toList,
       "seq 0 ".toList ++ intToStr (flags.num_shards - 1) ++ " |".toList,
       "parallel -q --halt 2 --line-buffer".toList,
       "/opt/deepvariant/bin/make_examples".toList,
       "--mode".toList, "calling".toList,
       "--ref".toList, fmtQuoted ref,
       "--reads".toList, fmtQuoted reads] ++
      ("--examples".toList :: fmtQuoted examples :: rest) := by
    simp [make_examples_start]
  rw [hsplit, argAfter_append_not_mem ?hpre, argAfter_cons_self]
  case hpre =>
    intro t ht
    simp only [List.mem_cons, List.not_mem_nil, or_false] at ht
    rcases ht with rfl | rfl | rfl | rfl | rfl | rfl | rfl | rfl | rfl | rfl
    · decide
    · exact ne_of_head_chars rfl rfl (by decide)
    · decide
    · decide
    · decide
    · decide
    · decide
    · exact fmtQuoted_ne_dash rfl
    · decide
    · exact fmtQuoted_ne_dash rfl
  rfl

theorem argAfter_call_variants_examples (o ex m : Str) (rest : List Str) :
    argAfter ("--examples".toList)
      (["time".toList, "/opt/deepvariant/bin/call_variants".toList,
        "--outfile".toList, fmtQuoted o, "--examples".toList, fmtQuoted ex,
        "--checkpoint".toList, fmtQuoted m] ++ rest) =
    some (fmtQuoted ex) := by
  have hsplit :
      (["time".toList, "/opt/deepvariant/bin/call_variants".toList,
        "--outfile".toList, fmtQuoted o, "--examples".toList, fmtQuoted ex,
        "--checkpoint".toList, fmtQuoted m] ++ rest) =
      ["time".toList, "/opt/deepvariant/bin/call_variants".toList,
        "--outfile".toList, fmtQuoted o] ++
      ("--examples".toList :: fmtQuoted ex ::
        ("--checkpoint".toList :: fmtQuoted m :: rest)) := by
    simp
  rw [hsplit, argAfter_append_not_mem ?hpre, argAfter_cons_self]
  case hpre =>
    intro t ht
    simp only [List.mem_cons, List.not_mem_nil, or_false] at ht
    rcases ht with rfl | rfl | rfl | rfl
    · decide
    · decide
    · decide
    · exact fmtQuoted_ne_dash rfl
  rfl

theorem argAfter_call_variants_outfile (o ex m : Str) (rest : List Str) :
    argAfter ("--outfile".toList)
      (["time".toList, "/opt/deepvariant/bin/call_variants".toList,
        "--outfile".toList, fmtQuoted o, "--examples".toList, fmtQuoted ex,
        "--checkpoint".toList, fmtQuoted m] ++ rest) =
    some (fmtQuoted o) := by
  have hsplit :
      (["time".toList, "/opt/deepvariant/bin/call_variants".toList,
        "--outfile".toList, fmtQuoted o, "--examples".toList, fmtQuoted ex,
        "--checkpoint".toList, fmtQuoted m] ++ rest) =
      ["time".toList, "/opt/deepvariant/bin/call_variants".toList] ++
      ("--outfile".toList :: fmtQuoted o ::
        ("--examples".toList :: fmtQuoted ex ::
          "--checkpoint".toList :: fmtQuoted m :: rest)) := by
    simp
  rw [hsplit, argAfter_append_not_mem ?hpre, argAfter_cons_self]
  case hpre =>
    intro t ht
    simp only [List.mem_cons, List.not_mem_nil, or_false] at ht
    rcases ht with rfl | rfl
    · decide
    · decide
  rfl

theorem argAfter_postprocess_infile (ref infile outfile : Str)
    (rest : List Str) :
    argAfter ("--infile".toList)
      (["time".toList, "/opt/deepvariant/bin/postprocess_variants".toList,
        "--ref".toList, fmtQuoted ref, "--infile".toList, fmtQuoted infile,
        "--outfile".toList, fmtQuoted outfile] ++ rest) =
    some (fmtQuoted infile) := by
  have hsplit :
      (["time".toList, "/opt/deepvariant/bin/postprocess_variants".toList,
        "--ref".toList, fmtQuoted ref, "--infile".toList, fmtQuoted infile,
        "--outfile".toList, fmtQuoted outfile] ++ rest) =
      ["time".toList, "/opt/deepvariant/bin/postprocess_variants".toList,
        "--ref".toList, fmtQuoted ref] ++
      ("--infile".toList :: fmtQuoted infile ::
        ("--outfile".toList :: fmtQuoted outfile :: rest)) := by
    simp
  rw [hsplit, argAfter_append_not_mem ?hpre, argAfter_cons_self]
  case hpre =>
    intro t ht
    simp only [List.mem_cons, List.not_mem_nil, or_false] at ht
    rcases ht with rfl | rfl | rfl | rfl
    · decide
    · decide
    · decide
    · exact fmtQuoted_ne_dash rfl
  rfl

/-! ## Verified properties of the claims -/

/-- C7: for every string value rendered by the command renderer, if the
value already starts and ends with matching single or double quotes it is
passed through `_add_quotes` unchanged (never re-quoted), and otherwise it
is wrapped in double quotes. -/
theorem c7_string_quoting (s : Str) :
    (SpecQuoted s → _add_quotes (Value.str s) = s) ∧
    (¬SpecQuoted s → _add_quotes (Value.str s) = '"' :: s ++ ['"']) := by
  constructor
  · intro h
    simp [_add_quotes, (_is_quoted_iff s).mpr h]
  · intro h
    have hq : _is_quoted s = false := by
      cases hq : _is_quoted s
      · rfl
      · exact absurd ((_is_quoted_iff s).mp hq) h
    simp [_add_quotes, hq, fmtQuoted]

/-- Witness for C7: the quoted string `'x'` passes through unchanged, the
unquoted string `y` is wrapped in double quotes. -/
theorem c7_string_quoting_witness :
    _add_quotes (Value.str ("'x'".toList)) = "'x'".toList ∧
    _add_quotes (Value.str ("y".toList)) = '"' :: "y".toList ++ ['"'] := by
  constructor
  · exact (c7_string_quoting _).1 ⟨'\'', Or.inr rfl, by decide, by decide⟩
  · refine (c7_string_quoting _).2 ?_
    rintro ⟨c, hc, h1, _⟩
    rw [show ("y".toList).head? = some 'y' from rfl] at h1
    rcases hc with rfl | rfl <;> exact absurd (Option.some.inj h1) (by decide)

/-- C8 is false as stated: the numeric value `0.12` is rendered by
`_add_quotes` as the token `"0.12"`, which does carry added double quotes
beyond what the bare value `0.12` has. -/
theorem c8_numeric_counterexample :
    _add_quotes (Value.num ("0.12".toList)) = '"' :: "0.12".toList ++ ['"'] ∧
    _add_quotes (Value.num ("0.12".toList)) ≠ "0.12".toList :=
  ⟨rfl, by decide⟩

/-- C8 amended: a numeric value is wrapped in exactly one pair of double
quotes when rendered (never quoted a second time); concretely, the PACBIO
make-examples command renders `--vsc_min_fraction_indels` immediately
followed by the token `"0.12"`. -/
theorem c8_amended_numeric_quoting :
    (∀ r : Str, _add_quotes (Value.num r) = '"' :: r ++ ['"']) ∧
    (∃ toks ws,
      make_examples_tokens pacbioExampleFlags ("/ref.fa".toList)
        ("/reads.bam".toList) ("/tmp/ex.gz".toList) Option.none [] =
        Except.ok (toks, ws) ∧
      hasAdjacent ("--vsc_min_fraction_indels".toList)
        (fmtQuoted ("0.12".toList)) toks = true) := by
  refine ⟨fun r => rfl, ?_⟩
  exact ⟨_, _, rfl, by decide⟩

/-- C2 is false as stated: merging an overlay whose value equals the base
value still prints a warning (the code warns whenever the key is present,
without comparing values), while the claim requires a warning iff the old
and new values differ.  Concretely, merging `a ↦ True` over `a ↦ True`
emits the warning `(a, True, True)` although old = new. -/
theorem c2_equal_values_counterexample :
    (_update_kwargs_with_warning [("a".toList, Value.bool true)]
        [("a".toList, Value.bool true)]).2 =
      [("a".toList, Value.bool true, Value.bool true)] ∧
    (_update_kwargs_with_warning [("a".toList, Value.bool true)]
        [("a".toList, Value.bool true)]).2 ≠ [] :=
  ⟨by decide, by decide⟩

/-- C2 amended: for every base dict and overlay dict (with the unique keys
a Python dict has), a key present in both ends up bound to the overlay's
value, and a warning naming the key, the old value and the new value is
emitted if and only if the key is present in both — regardless of whether
the two values differ. -/
theorem c2_amended_merge (base : Dict) {over : Dict} (hnd : NodupKeys over) :
    (∀ k o v, dictGet base k = some o → dictGet over k = some v →
      dictGet (_update_kwargs_with_warning base over).1 k = some v ∧
        (k, o, v) ∈ (_update_kwargs_with_warning base over).2) ∧
    (∀ k o v, (k, o, v) ∈ (_update_kwargs_with_warning base over).2 →
      dictGet base k = some o ∧ dictGet over k = some v) :=
  ⟨fun _ _ _ hb ho => update_both hnd hb ho,
   fun _ _ _ hw => update_warning_src hnd hw⟩

/-- Witness for C2 (amended): merging `a ↦ "2"` over `a ↦ "1"` binds `a`
to `"2"` and warns `(a, "1", "2")`. -/
theorem c2_amended_merge_witness :
    dictGet (_update_kwargs_with_warning [("a".toList, Value.str ("1".toList))]
        [("a".toList, Value.str ("2".toList))]).1 ("a".toList) =
      some (Value.str ("2".toList)) ∧
    ("a".toList, Value.str ("1".toList), Value.str ("2".toList)) ∈
      (_update_kwargs_with_warning [("a".toList, Value.str ("1".toList))]
        [("a".toList, Value.str ("2".toList))]).2 :=
  (c2_amended_merge _ (by decide)).1 _ _ _ (by decide) (by decide)

/-- C5: `_extra_args_to_dict "a=true,b=false,c=5"` yields
`a ↦ True, b ↦ False, c ↦ "5"`; and in general, values equal to
`true`/`false` case-insensitively parse to booleans while every other
value stays a string, and every well-formed comma-separated `name=value`
string parses to the dict built by successive assignments of the
converted values. -/
theorem c5_extra_args_parsing :
    (_extra_args_to_dict (some ("a=true,b=false,c=5".toList)) =
      Except.ok [("a".toList, Value.bool true), ("b".toList, Value.bool false),
        ("c".toList, Value.str ("5".toList))]) ∧
    (∀ v : Str,
      (v.map Char.toLower = "true".toList → convertValue v = Value.bool true) ∧
      (v.map Char.toLower = "false".toList → convertValue v = Value.bool false) ∧
      (v.map Char.toLower ≠ "true".toList → v.map Char.toLower ≠ "false".toList →
        convertValue v = Value.str v)) ∧
    (∀ ps : List (Str × Str), ps ≠ [] →
      (∀ p ∈ ps, ',' ∉ p.1 ∧ '=' ∉ p.1 ∧ ',' ∉ p.2 ∧ '=' ∉ p.2) →
      _extra_args_to_dict (some (renderPairs ps)) =
        Except.ok (ps.foldl (fun d p => dictInsert d p.1 (convertValue p.2)) [])) := by
  refine ⟨by decide, ?_, ?_⟩

  · intro v
    refine ⟨fun h => ?_, fun h => ?_, fun h1 h2 => ?_⟩
    · simp [convertValue, h]
    · simp [convertValue, h]
    · unfold convertValue
      rw [if_neg h1, if_neg h2]
  · intro ps hne hwf
    simp only [_extra_args_to_dict]
    rw [splitOnChar_renderPairs hne (fun p hp => ⟨(hwf p hp).1, (hwf p hp).2.2.1⟩)]
    exact parsePairs_mapped (fun p hp => ⟨(hwf p hp).2.1, (hwf p hp).2.2.2⟩) []

/-- Witness for C5: the well-formed string `x=TRUE` parses to
`x ↦ True`. -/
theorem c5_extra_args_parsing_witness :
    _extra_args_to_dict (some (renderPairs [("x".toList, "TRUE".toList)])) =
      Except.ok [("x".toList, Value.bool true)] :=
  (c5_extra_args_parsing).2.2 [("x".toList, "TRUE".toList)] (by decide) (by decide)

/-- C10: when the same flag name appears in several `name=value` pairs of
an extra-args string, the parsed dict binds that name to the converted
value of the last such pair; `_extra_args_to_dict` emits no warnings (its
result is the dict alone), and the merge warnings of
`_update_kwargs_with_warning` only ever name keys already present in the
pre-existing keyword arguments. -/
theorem c10_duplicate_names_last_wins :
    (_extra_args_to_dict (some ("a=1,a=2".toList)) =
      Except.ok [("a".toList, Value.str ("2".toList))]) ∧
    (∀ ps : List (Str × Str), ps ≠ [] →
      (∀ p ∈ ps, ',' ∉ p.1 ∧ '=' ∉ p.1 ∧ ',' ∉ p.2 ∧ '=' ∉ p.2) →
      ∀ d, _extra_args_to_dict (some (renderPairs ps)) = Except.ok d →
        ∀ k, dictGet d k = (lastValue ps k).map convertValue) ∧
    (∀ base over : Dict, NodupKeys over →
      ∀ w ∈ (_update_kwargs_with_warning base over).2,
        w.1 ∈ base.map Prod.fst) := by
  refine ⟨by decide, ?_, ?_⟩
  · intro ps hne hwf d hd k
    have hparse : _extra_args_to_dict (some (renderPairs ps)) =
        Except.ok (ps.foldl (fun d p => dictInsert d p.1 (convertValue p.2)) []) := by
      simp only [_extra_args_to_dict]
      rw [splitOnChar_renderPairs hne (fun p hp => ⟨(hwf p hp).1, (hwf p hp).2.2.1⟩)]
      exact parsePairs_mapped (fun p hp => ⟨(hwf p hp).2.1, (hwf p hp).2.2.2⟩) []
    rw [hparse] at hd
    obtain hd' := Except.ok.inj hd
    subst hd'
    rw [foldl_dictInsert_get]
    cases lastValue ps k <;> simp [dictGet]
  · intro base over hnd w hw
    obtain ⟨k, o, v⟩ := w
    exact mem_keys_of_dictGet (update_warning_src hnd hw).1

/-- Witness for C10: parsing the rendering of `a=1,a=2` binds `a` to the
value of the last pair. -/
theorem c10_duplicate_names_last_wins_witness :
    dictGet [("a".toList, Value.str ("2".toList))] ("a".toList) =
      (lastValue [("a".toList, "1".toList), ("a".toList, "2".toList)]
        ("a".toList)).map convertValue :=
  (c10_duplicate_names_last_wins).2.1
    [("a".toList, "1".toList), ("a".toList, "2".toList)]
    (by decide) (by decide) _ (by decide) ("a".toList)

/-- C6: the renderer emits, for a key `k` of the merged mapping, exactly
the single token `--nok` for boolean `False`, exactly the single token
`--k` for boolean `True`, and no tokens at all for `None`; each present
key's tokens appear contiguously in the rendered command, whose entries
are iterated in lexicographically sorted key order (a sorted permutation
of the mapping). -/
theorem c6_rendered_tokens (d : Dict) :
    (∀ k : Str, entryTokens (k, Value.bool false) = ["--no".toList ++ k] ∧
      entryTokens (k, Value.bool true) = ["--".toList ++ k] ∧
      entryTokens (k, Value.none) = []) ∧
    (∀ k v, dictGet d k = some v →
      ∃ pre suf, _extend_command_by_args_dict [] d =
        pre ++ entryTokens (k, v) ++ suf) ∧
    List.Sorted dictLe (sortDict d) ∧
    List.Perm (sortDict d) d ∧
    _extend_command_by_args_dict [] d = (sortDict d).flatMap entryTokens := by
  refine ⟨fun k => ⟨rfl, rfl, rfl⟩, ?_, sortDict_sorted d, sortDict_perm d,
    by simp [_extend_command_by_args_dict]⟩
  intro k v h
  obtain ⟨s, t, hst⟩ := List.append_of_mem (mem_sortDict.mpr (mem_of_dictGet h))
  refine ⟨s.flatMap entryTokens, t.flatMap entryTokens, ?_⟩
  simp [_extend_command_by_args_dict, hst]

/-- Witness for C6: rendering the mapping `a ↦ False` produces the single
token `--noa` (as a contiguous block). -/
theorem c6_rendered_tokens_witness :
    ∃ pre suf, _extend_command_by_args_dict []
        [("a".toList, Value.bool false)] =
      pre ++ entryTokens ("a".toList, Value.bool false) ++ suf :=
  (c6_rendered_tokens _).2.1 ("a".toList) (Value.bool false) (by decide)

/-- C3: with `model_type=PACBIO`, the three special defaults
(`realign_reads=False`, `vsc_min_fraction_indels=0.12`,
`alt_aligned_pileup='diff_channels'`) are injected before the user's
extra args are merged, so a user extra-arg for any of these keys ends up
bound to the user's value with an overwrite warning naming the injected
default as the old value; and when the user does not override
`realign_reads`, the make-examples command contains the token
`--norealign_reads`. -/
theorem c3_pacbio_special_args (flags : Flags)
    (hp : flags.model_type = some ("PACBIO".toList))
    (g r s : Value) (kwargs : Dict)
    (_hkw : kwargs = [("gvcf".toList, g), ("regions".toList, r),
      ("sample_name".toList, s)])
    (extra : Option Str) {e : Dict}
    (he : _extra_args_to_dict extra = Except.ok e) :
    (∀ k dflt, (k, dflt) ∈ special_args → ∀ v, dictGet e k = some v →
      ∃ kw ws, make_examples_merged flags kwargs extra = Except.ok (kw, ws) ∧
        dictGet kw k = some v ∧ (k, dflt, v) ∈ ws) ∧
    (dictGet e ("realign_reads".toList) = Option.none →
      ∀ ref reads examples, ∃ toks ws,
        make_examples_tokens flags ref reads examples extra kwargs =
          Except.ok (toks, ws) ∧
        make_examples_command flags ref reads examples extra kwargs =
          Except.ok (joinSpace toks, ws) ∧
        "--norealign_reads".toList ∈ toks) := by
  have hnde : NodupKeys e := extra_args_nodupKeys he
  have hmm : make_examples_merged flags kwargs extra =
      Except.ok
        ((_update_kwargs_with_warning
            (_update_kwargs_with_warning kwargs special_args).1 e).1,
          (_update_kwargs_with_warning kwargs special_args).2 ++
            (_update_kwargs_with_warning
              (_update_kwargs_with_warning kwargs special_args).1 e).2) := by
    simp [make_examples_merged, hp, he]
  have hs1 : ∀ k dflt, (k, dflt) ∈ special_args →
      dictGet (_update_kwargs_with_warning kwargs special_args).1 k =
        some dflt := by
    intro k dflt hmem
    exact update_fst_of_over (by decide)
      (dictGet_of_mem_nodup (by decide) hmem) kwargs
  constructor
  · intro k dflt hmem v hv
    refine ⟨_, _, hmm, ?_, ?_⟩
    · exact (update_both hnde (hs1 k dflt hmem) hv).1
    · exact List.mem_append_right _ (update_both hnde (hs1 k dflt hmem) hv).2
  · intro hno ref reads examples
    have hrr : dictGet (_update_kwargs_with_warning
        (_update_kwargs_with_warning kwargs special_args).1 e).1
        ("realign_reads".toList) = some (Value.bool false) := by
      rw [update_fst_dictGet_of_none hno]
      exact hs1 _ _ (by decide)
    refine ⟨_extend_command_by_args_dict
        (make_examples_start flags ref reads examples)
        (_update_kwargs_with_warning
          (_update_kwargs_with_warning kwargs special_args).1 e).1
        ++ ["--task \x7b\x7d".toList],
      (_update_kwargs_with_warning kwargs special_args).2 ++
        (_update_kwargs_with_warning
          (_update_kwargs_with_warning kwargs special_args).1 e).2,
      ?_, ?_, ?_⟩
    · simp only [make_examples_tokens, hmm]
    · simp only [make_examples_command, make_examples_tokens, hmm, Except.map]
    · exact List.mem_append_left _
        (mem_extend_of_dictGet hrr (make_examples_start flags ref reads examples)
          (by decide))

/-- Witness for C3: with PACBIO flags and the user extra-arg
`realign_reads=true`, the merged options bind `realign_reads` to `True`
and the warning `(realign_reads, False, True)` is emitted. -/
theorem c3_pacbio_special_args_witness :
    ∃ kw ws, make_examples_merged pacbioExampleFlags
        [("gvcf".toList, Value.none), ("regions".toList, Value.none),
          ("sample_name".toList, Value.none)]
        (some ("realign_reads=true".toList)) = Except.ok (kw, ws) ∧
      dictGet kw ("realign_reads".toList) = some (Value.bool true) ∧
      ("realign_reads".toList, Value.bool false, Value.bool true) ∈ ws :=
  (c3_pacbio_special_args pacbioExampleFlags rfl Value.none Value.none
      Value.none _ rfl (some ("realign_reads=true".toList)) rfl).1
    ("realign_reads".toList) (Value.bool false) (by decide)
    (Value.bool true) (by decide)

/-- C9: an extra-args string with a malformed pair (a comma-separated
part whose split on `=` does not have exactly two pieces) makes
`_extra_args_to_dict` raise; if any of the three extra-args flags holds
such a string, command construction raises, and `main` (past the version
check and the required-flag check) ends by raising before any command
reaches the execution loop. -/
theorem c9_malformed_extra_args_raise (s : Str)
    (h : ∃ part ∈ splitOnChar ',' s, (splitOnChar '=' part).length ≠ 2) :
    _extra_args_to_dict (some s) = Except.error () ∧
    ∀ flags : Flags,
      (flags.make_examples_extra_args = some s ∨
        flags.call_variants_extra_args = some s ∨
        flags.postprocess_variants_extra_args = some s) →
      (∀ dir, create_all_command_tokens flags dir = Except.error () ∧
        create_all_commands flags dir = Except.error ()) ∧
      (∀ tmpdir, truthy flags.version = false →
        firstMissingFlag flags = Option.none →
        main flags tmpdir = MainResult.raised) := by
  have hparse : _extra_args_to_dict (some s) = Except.error () := by
    simp only [_extra_args_to_dict]
    exact parsePairs_error h []
  refine ⟨hparse, ?_⟩
  intro flags hcase
  have hct : ∀ dir, create_all_command_tokens flags dir = Except.error () := by
    intro dir
    rcases hcase with hc | hc | hc
    · exact create_error_make flags dir (by rw [hc]; exact hparse)
    · exact create_error_cv flags dir (by rw [hc]; exact hparse)
    · exact create_error_pp flags dir (by rw [hc]; exact hparse)
  have hcc : ∀ dir, create_all_commands flags dir = Except.error () := by
    intro dir
    simp [create_all_commands, hct dir, Except.map]
  refine ⟨fun dir => ⟨hct dir, hcc dir⟩, ?_⟩
  intro tmpdir hv hm
  simp [main, hv, hm, hcc]

/-- Witness for C9: the malformed string `a` (no `=`) raises, and with it
set as make_examples extra args the whole run raises. -/
theorem c9_malformed_extra_args_raise_witness :
    _extra_args_to_dict (some ("a".toList)) = Except.error () ∧
    create_all_commands flagsBadExtraArgs ("/tmp".toList) = Except.error () ∧
    main flagsBadExtraArgs ("/tmp".toList) = MainResult.raised := by
  have h := c9_malformed_extra_args_raise ("a".toList)
    ⟨"a".toList, by decide, by decide⟩
  have h2 := h.2 flagsBadExtraArgs (Or.inl rfl)
  exact ⟨h.1, (h2.1 _).2, h2.2 ("/tmp".toList) (by decide) (by decide)⟩

/-- C4: when `--version` is not set and one of the four required flags is
missing, `main` exits with status 1 and a stderr message naming a missing
required flag, and no commands ever reach the execution loop. -/
theorem c4_missing_required_flag (flags : Flags) (tmpdir : Str)
    (hv : truthy flags.version = false)
    (hm : flags.model_type = Option.none ∨ flags.ref = Option.none ∨
      flags.reads = Option.none ∨ flags.output_vcf = Option.none) :
    ∃ k, k ∈ requiredFlagKeys ∧ get_flag_value flags k = Option.none ∧
      main flags tmpdir = MainResult.usageExit (missingFlagMessage k) 1 ∧
      ∀ cmds ws, main flags tmpdir ≠ MainResult.run cmds ws := by
  have hex : ∃ x ∈ requiredFlagKeys, ((get_flag_value flags x).isNone = true) := by
    rcases hm with h | h | h | h
    · refine ⟨"model_type".toList, by decide, ?_⟩
      have hval : get_flag_value flags ("model_type".toList) = flags.model_type := by
        unfold get_flag_value
        rw [if_pos rfl]
      rw [hval, h]
      rfl
    · refine ⟨"ref".toList, by decide, ?_⟩
      have hval : get_flag_value flags ("ref".toList) = flags.ref := by
        unfold get_flag_value
        rw [if_neg (by decide), if_pos rfl]
      rw [hval, h]
      rfl
    · refine ⟨"reads".toList, by decide, ?_⟩
      have hval : get_flag_value flags ("reads".toList) = flags.reads := by
        unfold get_flag_value
        rw [if_neg (by decide), if_neg (by decide), if_pos rfl]
      rw [hval, h]
      rfl
    · refine ⟨"output_vcf".toList, by decide, ?_⟩
      have hval : get_flag_value flags ("output_vcf".toList) = flags.output_vcf := by
        unfold get_flag_value
        rw [if_neg (by decide), if_neg (by decide), if_neg (by decide), if_pos rfl]
      rw [hval, h]
      rfl
  obtain ⟨k, hfind⟩ : ∃ k, firstMissingFlag flags = some k := by
    have hsome : (requiredFlagKeys.find?
        (fun k => (get_flag_value flags k).isNone)).isSome := by
      rw [List.find?_isSome]
      obtain ⟨x, hx1, hx2⟩ := hex
      exact ⟨x, hx1, hx2⟩
    obtain ⟨k, hk⟩ := Option.isSome_iff_exists.mp hsome
    exact ⟨k, hk⟩
  have hmiss : get_flag_value flags k = Option.none := by
    have := List.find?_some hfind
    simpa using this
  have hmem : k ∈ requiredFlagKeys := List.mem_of_find?_eq_some hfind
  have hmain : main flags tmpdir =
      MainResult.usageExit (missingFlagMessage k) 1 := by
    simp [main, hv, hfind]
  refine ⟨k, hmem, hmiss, hmain, ?_⟩
  intro cmds ws
  rw [hmain]
  intro hcon
  exact absurd hcon (by simp)

/-- Witness for C4: with `--ref` missing, `main` exits with status 1 and
the message names a missing required flag. -/
theorem c4_missing_required_flag_witness :
    ∃ k, k ∈ requiredFlagKeys ∧ get_flag_value flagsWithoutRef k = Option.none ∧
      main flagsWithoutRef ("/tmp".toList) =
        MainResult.usageExit (missingFlagMessage k) 1 ∧
      ∀ cmds ws, main flagsWithoutRef ("/tmp".toList) ≠ MainResult.run cmds ws :=
  c4_missing_required_flag flagsWithoutRef ("/tmp".toList) (by decide)
    (Or.inr (Or.inl rfl))

/-- C1: a successful run with all four required flags set and
`num_shards=1` produces exactly three commands — make_examples,
call_variants, postprocess_variants, in that order — where the call-variants
`--examples` argument equals the make-examples `--examples` argument, and
the postprocess-variants `--infile` argument equals the call-variants
`--outfile` argument. -/
theorem c1_pipeline_threading (flags : Flags) (dir : Str)
    (_hshards : flags.num_shards = 1)
    (_hmt : flags.model_type ≠ Option.none)
    (_href : flags.ref ≠ Option.none)
    (_hreads : flags.reads ≠ Option.none)
    (_hvcf : flags.output_vcf ≠ Option.none)
    (hok : ∃ p, create_all_command_tokens flags dir = Except.ok p) :
    ∃ t1 t2 t3 ws,
      create_all_command_tokens flags dir = Except.ok ([t1, t2, t3], ws) ∧
      create_all_commands flags dir =
        Except.ok ([joinSpace t1, joinSpace t2, joinSpace t3], ws) ∧
      "/opt/deepvariant/bin/make_examples".toList ∈ t1 ∧
      "/opt/deepvariant/bin/call_variants".toList ∈ t2 ∧
      "/opt/deepvariant/bin/postprocess_variants".toList ∈ t3 ∧
      argAfter ("--examples".toList) t2 = argAfter ("--examples".toList) t1 ∧
      (argAfter ("--examples".toList) t1).isSome = true ∧
      argAfter ("--infile".toList) t3 = argAfter ("--outfile".toList) t2 ∧
      (argAfter ("--outfile".toList) t2).isSome = true := by
  obtain ⟨p, hp0⟩ := hok
  have hp := hp0
  simp only [create_all_command_tokens] at hp
  obtain ⟨t1p, h1, hp⟩ := except_bind_ok_inv hp
  obtain ⟨toks1, ws1⟩ := t1p
  obtain ⟨ckpt, h2, hp⟩ := except_bind_ok_inv hp
  obtain ⟨t2t, h3, hp⟩ := except_bind_ok_inv hp
  obtain ⟨t3t, h4, hp5⟩ := except_map_ok_inv hp
  dsimp only at hp5
  subst hp5
  refine ⟨toks1, t2t, t3t, ws1, hp0, ?_, ?_, ?_, ?_, ?_, ?_, ?_, ?_⟩
  · simp [create_all_commands, hp0, Except.map]
  · obtain ⟨r1, hr1⟩ := make_examples_tokens_ok h1
    rw [hr1]
    simp [make_examples_start]
  · obtain ⟨r2, hr2⟩ := call_variants_tokens_ok h3
    rw [hr2]
    simp
  · obtain ⟨r3, hr3⟩ := postprocess_variants_tokens_ok h4
    rw [hr3]
    simp
  · obtain ⟨r1, hr1⟩ := make_examples_tokens_ok h1
    obtain ⟨r2, hr2⟩ := call_variants_tokens_ok h3
    rw [hr1, hr2, argAfter_make_examples, argAfter_call_variants_examples]
  · obtain ⟨r1, hr1⟩ := make_examples_tokens_ok h1
    rw [hr1, argAfter_make_examples]
    rfl
  · obtain ⟨r2, hr2⟩ := call_variants_tokens_ok h3
    obtain ⟨r3, hr3⟩ := postprocess_variants_tokens_ok h4
    rw [hr3, hr2, argAfter_postprocess_infile, argAfter_call_variants_outfile]
  · obtain ⟨r2, hr2⟩ := call_variants_tokens_ok h3
    rw [hr2, argAfter_call_variants_outfile]
    rfl

/-- Witness for C1: a concrete WGS run with all four required flags and
one shard yields the three threaded commands. -/
theorem c1_pipeline_threading_witness :
    ∃ t1 t2 t3 ws,
      create_all_command_tokens wgsExampleFlags ("/tmp".toList) =
        Except.ok ([t1, t2, t3], ws) ∧
      create_all_commands wgsExampleFlags ("/tmp".toList) =
        Except.ok ([joinSpace t1, joinSpace t2, joinSpace t3], ws) ∧
      "/opt/deepvariant/bin/make_examples".toList ∈ t1 ∧
      "/opt/deepvariant/bin/call_variants".toList ∈ t2 ∧
      "/opt/deepvariant/bin/postprocess_variants".toList ∈ t3 ∧
      argAfter ("--examples".toList) t2 = argAfter ("--examples".toList) t1 ∧
      (argAfter ("--examples".toList) t1).isSome = true ∧
      argAfter ("--infile".toList) t3 = argAfter ("--outfile".toList) t2 ∧
      (argAfter ("--outfile".toList) t2).isSome = true :=
  c1_pipeline_threading wgsExampleFlags ("/tmp".toList) rfl (by decide)
    (by decide) (by decide) (by decide) ⟨_, rfl⟩

end RunDeepVariant
